import Mathlib

/-!
Shallow embedding of the greeclimate library core (device property cache and
dirty tracking, temperature conversion table, humidity accessors, discovery
deduplication, envelope/cipher plumbing) together with theorems settling the
spec claims about it.

Python dicts are modelled as association lists preserving insertion order
(first occurrence wins on lookup, assignment updates in place or appends),
Python `None` as `Option.none`, Python exceptions as an `Except` error type.
-/

namespace Gree

/-- Python exception kinds that the embedded code can raise.  `valueError`
models `ValueError`, `typeError` models `TypeError` (e.g. comparing `None`
with an int), `indexError` models `IndexError` (subscript on an empty list).
The repository's own exception classes (`DeviceTimeoutError`, ...) are plain
subclasses with no behavior; they are modelled by dedicated result types
below. -/
inductive PyErr where
  | valueError
  | typeError
  | indexError
deriving DecidableEq, Repr

/-- Decidable equality for `Except`, used to evaluate the embedded functions
on concrete inputs. -/
instance instDecEqExcept {ε α : Type} [DecidableEq ε] [DecidableEq α] :
    DecidableEq (Except ε α) := fun x y =>
  match x, y with
  | Except.ok a, Except.ok b =>
    if h : a = b then isTrue (by rw [h]) else isFalse (fun hh => by cases hh; exact h rfl)
  | Except.error a, Except.error b =>
    if h : a = b then isTrue (by rw [h]) else isFalse (fun hh => by cases hh; exact h rfl)
  | Except.ok _, Except.error _ => isFalse (fun hh => by cases hh)
  | Except.error _, Except.ok _ => isFalse (fun hh => by cases hh)

/-- Lookup in a Python-dict-as-association-list: value of the first binding
of key `k`, or `none` (Python `dict.get`). -/
def alistLookup {α : Type} (d : List (String × α)) (k : String) : Option α :=
  (d.find? (fun p => p.1 == k)).map Prod.snd

/-- Assignment `d[k] = v` on a Python-dict-as-association-list: update the
existing binding in place (keeping its position, as Python dicts keep
insertion order), or append a new binding at the end. -/
def alistSet {α : Type} (d : List (String × α)) (k : String) (v : α) : List (String × α) :=
  if d.any (fun p => p.1 == k) then
    d.map (fun p => if p.1 == k then (k, v) else p)
  else d ++ [(k, v)]

/-- The keys of a dict, in order. -/
def alistKeys {α : Type} (d : List (String × α)) : List String :=
  d.map Prod.fst

/-- State of `Device` relevant to the property cache: `_properties` (the dict,
`None` and `{}` both modelled as `[]`), `_dirty` (the list of dirty keys) and
`version` (the firmware version string derived from `hid`, or `None`). -/
structure DeviceState where
  properties : List (String × Int)
  dirty : List String
  version : Option String
deriving DecidableEq, Repr

/-- `Device.get_property`: lookup of a wire-name key in the property cache
(`self._properties.get(name.value)`), `None` when absent. -/
def get_property (st : DeviceState) (name : String) : Option Int :=
  alistLookup st.properties name

/-- `Device.set_property`: if the cached value already equals `value`, return
with no change; otherwise store the value and append the key to `_dirty`
unless it is already there. -/
def set_property (st : DeviceState) (name : String) (value : Int) : DeviceState :=
  if alistLookup st.properties name = some value then st
  else
    { st with
      properties := alistSet st.properties name value,
      dirty := if name ∈ st.dirty then st.dirty else st.dirty ++ [name] }

/-- Result of `Device.push_state_update`: normal return, or the
`DeviceTimeoutError` raised when the network send times out. -/
inductive PushResult where
  | ok
  | deviceTimeout
deriving DecidableEq, Repr

/-- One iteration of the `for name in self._dirty` loop in
`Device.push_state_update`: store the cached value under `name` in the
outgoing payload dict, and when `name` is `"SetTem"` also store the cached
`"TemRec"` and `"TemUn"` values. -/
def pushStep (st : DeviceState) (props : List (String × Option Int)) (name : String) :
    List (String × Option Int) :=
  let props1 := alistSet props name (alistLookup st.properties name)
  if name = "SetTem" then
    alistSet (alistSet props1 "TemRec" (alistLookup st.properties "TemRec"))
      "TemUn" (alistLookup st.properties "TemUn")
  else props1

/-- The outgoing payload dict built by `Device.push_state_update` from the
dirty list. -/
def buildPushPayload (st : DeviceState) : List (String × Option Int) :=
  st.dirty.foldl (pushStep st) []

/-- `Device.push_state_update`, as a function of the device state and of
whether the network send (`network.send_state`) times out.  Mirrors the
source order: if nothing is dirty return immediately; otherwise build the
payload, clear `_dirty`, then send (a timeout raises `DeviceTimeoutError`).
Returns the result, the final state, and the payload that was handed to
`network.send_state` (`none` when nothing was sent).  Binding is assumed to
have happened (`device_key` set), which the send models do not consult. -/
def push_state_update (st : DeviceState) (sendTimesOut : Bool) :
    PushResult × DeviceState × Option (List (String × Option Int)) :=
  if st.dirty.isEmpty then (PushResult.ok, st, none)
  else
    let props := buildPushPayload st
    let cleared : DeviceState := { st with dirty := [] }
    if sendTimesOut then (PushResult.deviceTimeout, cleared, some props)
    else (PushResult.ok, cleared, some props)

/-! ### Temperature conversion table -/

/-- One entry of `TEMP_TABLE`. -/
structure TempRecord where
  f : Int
  temSet : Int
  temRec : Int
deriving DecidableEq, Repr

/-- `generate_temperature_record(temp_f)`.  The source computes
`temSet = round((temp_f - 32.0) * 5.0 / 9.0)` and
`temRec = int((((temp_f - 32.0) * 5.0 / 9.0) - temSet) > 0)` in floating
point with Python `round` (nearest, ties to even).  For integer `temp_f` the
value `(temp_f - 32) * 5 / 9` is never exactly halfway between two integers
(`10 * (temp_f - 32) = 9 * (2k + 1)` is impossible: even vs odd), and its
distance from any half-integer is at least `1/18`, far above double-precision
error for these magnitudes, so rounding to nearest over the exact rationals
agrees with the source: `round(x) = ⌊x + 1/2⌋ = ⌊(10 * (f - 32) + 9) / 18⌋`.
Likewise the sign test `x - temSet > 0` is exact: either `x` is an exact
integer in floating point or `|x - temSet| ≥ 1/9`. -/
def generate_temperature_record (temp_f : Int) : TempRecord :=
  let temSet : Int := Int.fdiv (10 * (temp_f - 32) + 9) 18
  let temRec : Int := if 9 * temSet < 5 * (temp_f - 32) then 1 else 0
  { f := temp_f, temSet := temSet, temRec := temRec }

def TEMP_MIN_TABLE : Int := -60

def TEMP_MAX_TABLE : Int := 60

def TEMP_MIN_TABLE_F : Int := -76

def TEMP_MAX_TABLE_F : Int := 140

def TEMP_OFFSET : Int := 40

def HUMIDITY_MIN : Int := 30

def HUMIDITY_MAX : Int := 80

/-- `TEMP_TABLE = [generate_temperature_record(x) for x in range(-76, 141)]`. -/
def TEMP_TABLE : List TempRecord :=
  (List.range 217).map (fun i => generate_temperature_record (TEMP_MIN_TABLE_F + (i : Int)))

/-- `Device._convert_to_units(value, bit)`, with the device's
`temperature_units` (cached `"TemUn"`, `None` when absent) passed explicitly.
If the unit is not Fahrenheit the value is returned unchanged (Python
`None != 1` is true, so a `None` unit also returns the value unchanged).
Otherwise: comparing a `None` value against the range bounds raises
`TypeError`; an out-of-range value raises `ValueError`; otherwise the table
entries with matching `temSet` are filtered, the first with `temRec == bit`
is chosen, falling back to the first match (`matching_temSet[0]` raises
`IndexError` when empty, which cannot happen in range). -/
def convert_to_units (units : Option Int) (value : Option Int) (bit : Option Int) :
    Except PyErr (Option Int) :=
  if units ≠ some 1 then Except.ok value
  else
    match value with
    | none => Except.error PyErr.typeError
    | some v =>
      if v < TEMP_MIN_TABLE ∨ TEMP_MAX_TABLE < v then Except.error PyErr.valueError
      else
        let matching := TEMP_TABLE.filter (fun t => t.temSet == v)
        match matching.find? (fun t => bit == some t.temRec) with
        | some t => Except.ok (some t.f)
        | none =>
          match matching.head? with
          | some t => Except.ok (some t.f)
          | none => Except.error PyErr.indexError

/-- `Device.target_temperature` (getter): convert the cached `"SetTem"` using
the cached `"TemRec"` bit. -/
def target_temperature (st : DeviceState) : Except PyErr (Option Int) :=
  convert_to_units (get_property st "TemUn") (get_property st "SetTem")
    (get_property st "TemRec")

/-- Value of a decimal digit character, `none` for anything else. -/
def digitVal (c : Char) : Option Nat :=
  if 48 ≤ c.toNat ∧ c.toNat ≤ 57 then some (c.toNat - 48) else none

/-- Parse a nonempty all-digit character list as a natural number
(accumulator form). -/
def parseDigitsAux : List Char → Nat → Option Nat
  | [], acc => some acc
  | c :: cs, acc =>
    match digitVal c with
    | some d => parseDigitsAux cs (acc * 10 + d)
    | none => none

/-- Python `int(s)` restricted to nonnegative decimal strings, the only shape
firmware versions take (the library derives them from the regex `[\d.]+`);
`none` models the `ValueError` that `int` raises otherwise. -/
def pyIntOfString (s : String) : Option Int :=
  match s.toList with
  | [] => none
  | cs => (parseDigitsAux cs 0).map (fun n => (n : Int))

/-- `s.split(".")[0]`: the prefix of `s` up to the first dot. -/
def versionHead (s : String) : String :=
  String.mk (s.toList.takeWhile (fun c => c ≠ Char.ofNat 46))

/-- Derivation of the major firmware version in `Device.current_temperature`:
`v = self.version and int(self.version.split(".")[0])`.  `None` or `""` are
falsy and leave `v` non-numeric (so `v == 4` is false); otherwise `int(...)`
parses the first dot-separated component and raises `ValueError` on a
non-numeric component. -/
def pythonMajor : Option String → Except PyErr (Option Int)
  | none => Except.ok none
  | some s =>
    if s = "" then Except.ok none
    else
      match pyIntOfString (versionHead s) with
      | some n => Except.ok (some n)
      | none => Except.error PyErr.valueError

/-- `Device.current_temperature` (getter).  With a cached sensor value:
under v4 semantics convert it directly; under v3 semantics convert
`TemSen - 40` when the sensor value is nonzero; a `ValueError` from the
conversion is caught and, like a missing or zero (v3) sensor value, falls
through to returning `target_temperature`. -/
def current_temperature (st : DeviceState) : Except PyErr (Option Int) :=
  match get_property st "TemSen" with
  | none => target_temperature st
  | some prop =>
    let bit := get_property st "TemRec"
    match pythonMajor st.version with
    | Except.error e => Except.error e
    | Except.ok v =>
      if v = some 4 then
        match convert_to_units (get_property st "TemUn") (some prop) bit with
        | Except.ok r => Except.ok r
        | Except.error PyErr.valueError => target_temperature st
        | Except.error e => Except.error e
      else if prop ≠ 0 then
        match convert_to_units (get_property st "TemUn") (some (prop - TEMP_OFFSET)) bit with
        | Except.ok r => Except.ok r
        | Except.error PyErr.valueError => target_temperature st
        | Except.error e => Except.error e
      else target_temperature st

/-- `Device.target_humidity` (getter).  The source body is the bare
expression `15 + (self.get_property(Props.HUM_SET) * 5)` with no `return`
statement: the expression is evaluated (raising `TypeError` when the cached
`"Dwet"` is absent, i.e. `None * 5`) and discarded, and the property
evaluates to `None`. -/
def target_humidity_get (st : DeviceState) : Except PyErr (Option Int) :=
  match get_property st "Dwet" with
  | none => Except.error PyErr.typeError
  | some d =>
    let _percent := 15 + d * 5
    Except.ok none

/-- `Device.target_humidity` (setter).  The source defines an inner
`validate` function but never calls it, so no range check happens and no
exception is raised; `(value - 15) // 5` (Python floor division) is stored
via `set_property`. -/
def target_humidity_set (st : DeviceState) (value : Int) : DeviceState :=
  set_property st "Dwet" (Int.fdiv (value - 15) 5)

/-! ### Association-list lemmas -/

theorem find?_map_subst {α : Type} (k : String) (v : α) :
    ∀ d : List (String × α), d.any (fun p => p.1 == k) = true →
      (d.map (fun p => if p.1 == k then (k, v) else p)).find? (fun p => p.1 == k) =
        some (k, v) := by
  intro d
  induction d with
  | nil => intro h; simp at h
  | cons a d ih =>
    intro h
    by_cases hk : a.1 == k
    · simp [List.find?, hk]
    · simp only [List.map_cons, List.find?, hk, if_neg, Bool.false_eq_true, ite_false]
      simp only [List.any_cons, hk, Bool.false_or] at h
      simpa [hk] using ih h

theorem find?_append_new {α : Type} (k : String) (v : α) :
    ∀ d : List (String × α), d.any (fun p => p.1 == k) = false →
      (d ++ [(k, v)]).find? (fun p => p.1 == k) = some (k, v) := by
  intro d
  induction d with
  | nil => intro _; simp [List.find?]
  | cons a d ih =>
    intro h
    simp only [List.any_cons, Bool.or_eq_false_iff] at h
    simp only [List.cons_append, List.find?, h.1]
    exact ih h.2

/-- After `d[k] = v`, looking up `k` yields `v`. -/
theorem alistLookup_alistSet_self {α : Type} (d : List (String × α)) (k : String) (v : α) :
    alistLookup (alistSet d k v) k = some v := by
  unfold alistLookup alistSet
  rcases Bool.eq_false_or_eq_true (d.any (fun p => p.1 == k)) with h | h
  · rw [if_pos h, find?_map_subst k v d h]; rfl
  · rw [if_neg (by simp [h]), find?_append_new k v d h]; rfl

/-- Assignment either keeps the key list unchanged (update in place) or
appends the new key at the end. -/
theorem alistKeys_alistSet {α : Type} (d : List (String × α)) (k : String) (v : α) :
    alistKeys (alistSet d k v) =
      if d.any (fun p => p.1 == k) then alistKeys d else alistKeys d ++ [k] := by
  unfold alistKeys alistSet
  by_cases h : d.any (fun p => p.1 == k)
  · rw [if_pos h, if_pos h, List.map_map]
    refine List.map_congr_left (fun p _ => ?_)
    by_cases hk : p.1 == k
    · simp only [Function.comp, hk, ite_true]
      exact (eq_of_beq hk).symm
    · simp [Function.comp, hk]
  · rw [if_neg h, if_neg h]
    simp

theorem mem_alistKeys_alistSet_of_mem {α : Type} (d : List (String × α)) (k key : String)
    (v : α) (h : key ∈ alistKeys d) : key ∈ alistKeys (alistSet d k v) := by
  rw [alistKeys_alistSet]
  by_cases hc : d.any (fun p => p.1 == k)
  · rwa [if_pos hc]
  · rw [if_neg hc]; exact List.mem_append_left _ h

theorem mem_alistKeys_alistSet_self {α : Type} (d : List (String × α)) (k : String) (v : α) :
    k ∈ alistKeys (alistSet d k v) := by
  rw [alistKeys_alistSet]
  rcases Bool.eq_false_or_eq_true (d.any (fun p => p.1 == k)) with hc | hc
  · rw [if_pos hc]
    rcases List.any_eq_true.mp hc with ⟨p, hp, hpk⟩
    rw [← eq_of_beq hpk]
    exact List.mem_map_of_mem Prod.fst hp
  · rw [if_neg (by simp [hc])]; simp

/-- Assignment of a value satisfying a per-entry predicate preserves the
predicate on every entry. -/
theorem alistSet_forall {α : Type} {P : String × α → Prop} (d : List (String × α))
    (k : String) (v : α) (hd : ∀ e ∈ d, P e) (hv : P (k, v)) :
    ∀ e ∈ alistSet d k v, P e := by
  unfold alistSet
  by_cases h : d.any (fun p => p.1 == k)
  · rw [if_pos h]
    intro e he
    rcases List.mem_map.mp he with ⟨p, hp, hpe⟩
    by_cases hk : p.1 == k
    · rw [if_pos hk] at hpe; exact hpe ▸ hv
    · rw [if_neg hk] at hpe; exact hpe ▸ hd p hp
  · rw [if_neg h]
    intro e he
    rcases List.mem_append.mp he with he | he
    · exact hd e he
    · rcases List.mem_singleton.mp he with rfl; exact hv

/-- If every entry of the dict carries the canonical value `f key` and the
key is present, lookup returns exactly `f key`. -/
theorem alistLookup_of_canonical {α : Type} (f : String → α) :
    ∀ d : List (String × α), (∀ e ∈ d, e.2 = f e.1) → ∀ k, k ∈ alistKeys d →
      alistLookup d k = some (f k) := by
  intro d
  induction d with
  | nil => intro _ k hk; simp [alistKeys] at hk
  | cons a d ih =>
    intro hc k hk
    by_cases hak : a.1 == k
    · have : a.2 = f k := by rw [hc a (List.mem_cons_self a d), eq_of_beq hak]
      simp [alistLookup, List.find?, hak, this]
    · have hk2 : k ∈ alistKeys d := by
        rcases List.mem_cons.mp hk with h | h
        · exact absurd (beq_iff_eq.mpr h.symm) hak
        · exact h
      have := ih (fun e he => hc e (List.mem_cons_of_mem a he)) k hk2
      simpa [alistLookup, List.find?, hak] using this

/-! ### Claim theorems: property cache and dirty set -/

/-- Claim C1 counterexample: with `"Pow"` dirty and the network send timing
out with `DeviceTimeoutError`, `push_state_update` has nevertheless emptied
the dirty set, contradicting the claim that on `DeviceTimeout` the dirty set
still contains every key that was dirty when it was called. -/
theorem push_timeout_dirty_cleared_counterexample :
    (push_state_update ⟨[("Pow", 1)], ["Pow"], none⟩ true).1 = PushResult.deviceTimeout ∧
      "Pow" ∉ (push_state_update ⟨[("Pow", 1)], ["Pow"], none⟩ true).2.1.dirty := by
  decide

/-- Claim C1 (amended): `push_state_update` clears the dirty set before the
network send, so after it returns — successfully or with `DeviceTimeout` —
the dirty set is empty. -/
theorem push_state_update_dirty_empty (st : DeviceState) (b : Bool) :
    (push_state_update st b).2.1.dirty = [] := by
  unfold push_state_update
  by_cases h : st.dirty.isEmpty
  · rw [if_pos h]
    exact List.isEmpty_iff.mp h
  · rw [if_neg h]
    by_cases hb : b <;> simp [hb]

/-- Claim C10: `set_property` with the currently cached value is the
identity; with a differing value it stores the value, appends the key to the
dirty list only when not already present, and preserves freedom from
duplicates of the dirty list. -/
theorem set_property_cases (st : DeviceState) (name : String) (value : Int) :
    (alistLookup st.properties name = some value → set_property st name value = st) ∧
    (alistLookup st.properties name ≠ some value →
      alistLookup (set_property st name value).properties name = some value ∧
      (name ∈ st.dirty → (set_property st name value).dirty = st.dirty) ∧
      (name ∉ st.dirty → (set_property st name value).dirty = st.dirty ++ [name]) ∧
      (st.dirty.Nodup → (set_property st name value).dirty.Nodup)) := by
  constructor
  · intro h; unfold set_property; rw [if_pos h]
  · intro h
    unfold set_property
    rw [if_neg h]
    refine ⟨alistLookup_alistSet_self _ _ _, ?_, ?_, ?_⟩
    · intro hm; simp [hm]
    · intro hm; simp [hm]
    · intro hnd
      by_cases hm : name ∈ st.dirty
      · simpa [hm] using hnd
      · simp only [hm, ite_false]
        rw [List.nodup_append]
        refine ⟨hnd, List.nodup_singleton name, ?_⟩
        intro a ha hb
        rw [List.mem_singleton] at hb
        exact hm (hb ▸ ha)

/-- Claim C10 witness: on a concrete state, setting `"Pow"` to its cached
value changes nothing. -/
theorem set_property_cases_witness :
    set_property ⟨[("Pow", 1)], ["Pow"], none⟩ "Pow" 1 = ⟨[("Pow", 1)], ["Pow"], none⟩ :=
  (set_property_cases ⟨[("Pow", 1)], ["Pow"], none⟩ "Pow" 1).1 (by decide)

/-- Claim C6: the code contradicts the claimed accessor behavior.  Reading
`target_humidity` with cached `Dwet = 3` yields `None` (the source computes
`15 + Dwet * 5` — which would be 30 — but has no `return` statement), and the
setter given the out-of-range percent 100 raises nothing and writes
`(100 - 15) // 5 = 17` into the cache, dirtying `"Dwet"` (the inner
`validate` function is defined but never called). -/
theorem target_humidity_code_bug :
    target_humidity_get ⟨[("Dwet", 3)], [], none⟩ = Except.ok none ∧
      (15 + 3 * 5 : Int) = 30 ∧
      target_humidity_set ⟨[], [], none⟩ 100 = ⟨[("Dwet", 17)], ["Dwet"], none⟩ := by
  decide

/-! ### Claim theorems: temperature conversion -/

set_option maxRecDepth 100000 in
theorem temp_roundtrip_all :
    ((List.range 217).all fun i =>
      let f : Int := TEMP_MIN_TABLE_F + (i : Int)
      let r := generate_temperature_record f
      decide (convert_to_units (some 1) (some r.temSet) (some r.temRec) =
        Except.ok (some f))) = true := by
  decide

/-- Claim C3: for every integer Fahrenheit value in [-76, 140], generating
the `(temSet, temRec)` record and converting back through the lookup table
(exact `temRec` match, falling back to the first `temSet` match) returns the
original Fahrenheit value. -/
theorem fahrenheit_roundtrip (f : Int) (h1 : TEMP_MIN_TABLE_F ≤ f)
    (h2 : f ≤ TEMP_MAX_TABLE_F) :
    convert_to_units (some 1) (some (generate_temperature_record f).temSet)
      (some (generate_temperature_record f).temRec) = Except.ok (some f) := by
  have hall := temp_roundtrip_all
  rw [List.all_eq_true] at hall
  have hbounds : TEMP_MIN_TABLE_F = (-76 : Int) ∧ TEMP_MAX_TABLE_F = (140 : Int) := by decide
  have hi : (f + 76).toNat ∈ List.range 217 := by
    rw [List.mem_range]; omega
  have hf : TEMP_MIN_TABLE_F + (((f + 76).toNat : Nat) : Int) = f := by
    rw [hbounds.1]; omega
  have := hall _ hi
  simp only [hf] at this
  exact of_decide_eq_true this

/-- Claim C3 witness: the round trip at 77 °F (25 °C, fractional bit 0). -/
theorem fahrenheit_roundtrip_witness :
    TEMP_MIN_TABLE_F ≤ 77 ∧ (77 : Int) ≤ TEMP_MAX_TABLE_F ∧
      convert_to_units (some 1) (some (generate_temperature_record 77).temSet)
        (some (generate_temperature_record 77).temRec) = Except.ok (some 77) :=
  ⟨by decide, by decide, fahrenheit_roundtrip 77 (by decide) (by decide)⟩

set_option maxRecDepth 40000 in
/-- Claim C5 counterexample: firmware `"3.31"` (v3 semantics), Fahrenheit
units, sensor `TemSen = 141` whose offset-adjusted value 101 is outside the
table range.  The code returns the target temperature 77 °F; clamping 101 to
the nearest in-range Celsius (60) and converting, as the claim describes,
would produce 140 °F instead. -/
theorem current_temperature_no_clamp_counterexample :
    current_temperature ⟨[("TemUn", 1), ("TemSen", 141), ("TemRec", 0), ("SetTem", 25)],
        [], some "3.31"⟩ = Except.ok (some 77) ∧
      convert_to_units (some 1) (some TEMP_MAX_TABLE) (some 0) = Except.ok (some 140) ∧
      (77 : Int) ≠ 140 := by
  decide

/-- Claim C5 (amended): with a cached sensor value and a parsed firmware
version — under v3 semantics (major version not 4) a nonzero `TemSen` is
converted with the 40 offset subtracted when the conversion succeeds, and
when the offset-adjusted value is rejected by the conversion (out of table
range under Fahrenheit units) the code falls back to the target temperature
instead of clamping; a zero `TemSen` under v3 reports the target temperature;
under v4 semantics `TemSen` is converted with no offset (with the same
fallback). -/
theorem current_temperature_semantics (st : DeviceState) (v : Option Int) (p : Int)
    (hv : pythonMajor st.version = Except.ok v)
    (hp : get_property st "TemSen" = some p) :
    (v ≠ some 4 → p ≠ 0 →
      (∀ r, convert_to_units (get_property st "TemUn") (some (p - TEMP_OFFSET))
          (get_property st "TemRec") = Except.ok r →
        current_temperature st = Except.ok r) ∧
      (convert_to_units (get_property st "TemUn") (some (p - TEMP_OFFSET))
          (get_property st "TemRec") = Except.error PyErr.valueError →
        current_temperature st = target_temperature st)) ∧
    (v ≠ some 4 → p = 0 → current_temperature st = target_temperature st) ∧
    (v = some 4 →
      (∀ r, convert_to_units (get_property st "TemUn") (some p)
          (get_property st "TemRec") = Except.ok r →
        current_temperature st = Except.ok r) ∧
      (convert_to_units (get_property st "TemUn") (some p)
          (get_property st "TemRec") = Except.error PyErr.valueError →
        current_temperature st = target_temperature st)) := by
  unfold current_temperature
  simp only [hp, hv]
  refine ⟨?_, ?_, ?_⟩
  · intro h4 hp0
    rw [if_neg h4, if_pos hp0]
    exact ⟨fun r hr => by rw [hr], fun hr => by rw [hr]⟩
  · intro h4 hp0
    rw [if_neg h4, if_neg (by simpa using hp0)]
  · intro h4
    rw [if_pos h4]
    exact ⟨fun r hr => by rw [hr], fun hr => by rw [hr]⟩

/-- Claim C5 witness: v3 firmware `"3.31"`, zero sensor value — the current
temperature reports the target temperature. -/
theorem current_temperature_semantics_witness :
    pythonMajor (some "3.31") = Except.ok (some 3) ∧
      get_property ⟨[("TemUn", 0), ("TemSen", 0), ("SetTem", 25)], [], some "3.31"⟩
        "TemSen" = some 0 ∧
      current_temperature ⟨[("TemUn", 0), ("TemSen", 0), ("SetTem", 25)], [], some "3.31"⟩ =
        target_temperature ⟨[("TemUn", 0), ("TemSen", 0), ("SetTem", 25)], [], some "3.31"⟩ :=
  ⟨by decide, by decide,
    (current_temperature_semantics ⟨[("TemUn", 0), ("TemSen", 0), ("SetTem", 25)], [],
        some "3.31"⟩ (some 3) 0 (by decide) (by decide)).2.1 (by decide) rfl⟩

/-! ### Claim theorems: push payload co-send rule -/

/-- Entries accumulated by the push loop always carry the cached value of
their key. -/
theorem pushPayload_canonical (st : DeviceState) :
    ∀ (l : List String) (acc : List (String × Option Int)),
      (∀ e ∈ acc, e.2 = alistLookup st.properties e.1) →
      ∀ e ∈ l.foldl (pushStep st) acc, e.2 = alistLookup st.properties e.1 := by
  intro l
  induction l with
  | nil => intro acc hacc; simpa using hacc
  | cons name l ih =>
    intro acc hacc
    rw [List.foldl_cons]
    refine ih _ ?_
    simp only [pushStep]
    by_cases hn : name = "SetTem"
    · simp only [hn, if_pos rfl]
      exact alistSet_forall _ _ _ (alistSet_forall _ _ _ (alistSet_forall _ _ _ hacc rfl) rfl) rfl
    · simp only [if_neg hn]
      exact alistSet_forall _ _ _ hacc rfl

/-- Keys present in the accumulator stay present through the push loop. -/
theorem pushPayload_keys_mono (st : DeviceState) :
    ∀ (l : List String) (acc : List (String × Option Int)) (k : String),
      k ∈ alistKeys acc → k ∈ alistKeys (l.foldl (pushStep st) acc) := by
  intro l
  induction l with
  | nil => intro acc k hk; simpa using hk
  | cons name l ih =>
    intro acc k hk
    rw [List.foldl_cons]
    refine ih _ _ ?_
    simp only [pushStep]
    by_cases hn : name = "SetTem"
    · simp only [hn, if_pos rfl]
      exact mem_alistKeys_alistSet_of_mem _ _ _ _
        (mem_alistKeys_alistSet_of_mem _ _ _ _ (mem_alistKeys_alistSet_of_mem _ _ _ _ hk))
    · simp only [if_neg hn]
      exact mem_alistKeys_alistSet_of_mem _ _ _ _ hk

/-- Processing the dirty key `"SetTem"` puts all three temperature keys into
the payload. -/
theorem pushStep_settem_keys (st : DeviceState) (acc : List (String × Option Int)) :
    "SetTem" ∈ alistKeys (pushStep st acc "SetTem") ∧
      "TemRec" ∈ alistKeys (pushStep st acc "SetTem") ∧
      "TemUn" ∈ alistKeys (pushStep st acc "SetTem") := by
  simp only [pushStep, if_pos rfl]
  refine ⟨?_, ?_, ?_⟩
  · exact mem_alistKeys_alistSet_of_mem _ _ _ _
      (mem_alistKeys_alistSet_of_mem _ _ _ _ (mem_alistKeys_alistSet_self _ _ _))
  · exact mem_alistKeys_alistSet_of_mem _ _ _ _ (mem_alistKeys_alistSet_self _ _ _)
  · exact mem_alistKeys_alistSet_self _ _ _

/-- Claim C7: whenever `"SetTem"` is dirty at push time, the payload handed
to `network.send_state` contains the keys `SetTem`, `TemRec` and `TemUn`, the
latter two bound to the cached local values. -/
theorem push_settem_cosend (st : DeviceState) (b : Bool) (h : "SetTem" ∈ st.dirty) :
    ∃ payload, (push_state_update st b).2.2 = some payload ∧
      "SetTem" ∈ alistKeys payload ∧
      alistLookup payload "TemRec" = some (alistLookup st.properties "TemRec") ∧
      alistLookup payload "TemUn" = some (alistLookup st.properties "TemUn") := by
  have hne : st.dirty.isEmpty = false := by
    cases hd : st.dirty with
    | nil => rw [hd] at h; cases h
    | cons a l => rfl
  refine ⟨buildPushPayload st, ?_, ?_, ?_, ?_⟩
  · unfold push_state_update
    rw [if_neg (by simp [hne])]
    by_cases hb : b <;> simp [hb]
  all_goals {
    rcases List.append_of_mem h with ⟨l1, l2, hd⟩
    have hcan : ∀ e ∈ buildPushPayload st, e.2 = alistLookup st.properties e.1 :=
      pushPayload_canonical st st.dirty [] (by intro e he; cases he)
    have hkeys : "SetTem" ∈ alistKeys (buildPushPayload st) ∧
        "TemRec" ∈ alistKeys (buildPushPayload st) ∧
        "TemUn" ∈ alistKeys (buildPushPayload st) := by
      unfold buildPushPayload
      rw [hd, List.foldl_append, List.foldl_cons]
      exact ⟨pushPayload_keys_mono st l2 _ _ (pushStep_settem_keys st _).1,
        pushPayload_keys_mono st l2 _ _ (pushStep_settem_keys st _).2.1,
        pushPayload_keys_mono st l2 _ _ (pushStep_settem_keys st _).2.2⟩
    first
    | exact hkeys.1
    | exact alistLookup_of_canonical (fun k => alistLookup st.properties k) _ hcan _ hkeys.2.1
    | exact alistLookup_of_canonical (fun k => alistLookup st.properties k) _ hcan _ hkeys.2.2
  }

/-- Claim C7 witness: a concrete push with `"SetTem"` dirty. -/
theorem push_settem_cosend_witness :
    "SetTem" ∈ (⟨[("SetTem", 25), ("TemRec", 0), ("TemUn", 1)], ["SetTem"], none⟩ :
        DeviceState).dirty ∧
      ∃ payload,
        (push_state_update ⟨[("SetTem", 25), ("TemRec", 0), ("TemUn", 1)], ["SetTem"], none⟩
            false).2.2 = some payload ∧
        "SetTem" ∈ alistKeys payload ∧
        alistLookup payload "TemRec" =
          some (alistLookup (⟨[("SetTem", 25), ("TemRec", 0), ("TemUn", 1)], ["SetTem"], none⟩ :
            DeviceState).properties "TemRec") ∧
        alistLookup payload "TemUn" =
          some (alistLookup (⟨[("SetTem", 25), ("TemRec", 0), ("TemUn", 1)], ["SetTem"], none⟩ :
            DeviceState).properties "TemUn") :=
  ⟨by decide,
    push_settem_cosend ⟨[("SetTem", 25), ("TemRec", 0), ("TemUn", 1)], ["SetTem"], none⟩
      false (by decide)⟩

/-! ### Discovery deduplication -/

/-- `DeviceInfo` as used by discovery: identity plus network coordinates.
The constructor's name fallback (mac with `":"` stripped) is irrelevant to
the claims and not modelled. -/
structure DiscDeviceInfo where
  ip : String
  port : Nat
  mac : String
  name : String
  brand : Option String
  model : Option String
  version : Option String
deriving DecidableEq, Repr

/-- `DeviceInfo.__eq__`: equality on mac, name, brand, model and version,
ignoring ip and port. -/
def deviceInfoEq (a b : DiscDeviceInfo) : Bool :=
  a.mac == b.mac && a.name == b.name && a.brand == b.brand &&
    a.model == b.model && a.version == b.version

/-- Discovery events fired at a listener. -/
inductive DiscEvent where
  | found (d : DiscDeviceInfo)
  | update (d : DiscDeviceInfo)
deriving DecidableEq, Repr

/-- `Discovery.device_found`, as the `for index, last_info in enumerate(...)`
loop over the known-device list: at the first known entry equal (by
`DeviceInfo.__eq__`) to the incoming info, either replace it in place and
fire `device_update` on every listener (when the ip changed) or return with
no change and no events; when no entry is equal, append the incoming info at
the end and fire `device_found` on every listener.  Returns the new
known-device list and the list of (listener, event) deliveries. -/
def device_found {α : Type} (d : DiscDeviceInfo) (listeners : List α) :
    List DiscDeviceInfo → List DiscDeviceInfo × List (α × DiscEvent)
  | [] => ([d], listeners.map (fun l => (l, DiscEvent.found d)))
  | last :: rest =>
    if deviceInfoEq d last then
      if d.ip ≠ last.ip then
        (d :: rest, listeners.map (fun l => (l, DiscEvent.update d)))
      else (last :: rest, [])
    else
      let r := device_found d listeners rest
      (last :: r.1, r.2)

/-- Index of the first known entry equal (by `deviceInfoEq`) to the incoming
info.  This definition follows the claim wording, to state the trichotomy of
`device_found` declaratively. -/
def specFirstMatchIdx (d : DiscDeviceInfo) : List DiscDeviceInfo → Option Nat
  | [] => none
  | last :: rest =>
    if deviceInfoEq d last then some 0
    else (specFirstMatchIdx d rest).map (· + 1)

/-- Claim C4: `device_found` behaves as exactly one of three cases.  When the
incoming info equals no known entry, it is appended and every listener
receives one `device_found` event; when it equals the known entry at first
matching index `i` and the ip is unchanged, nothing changes and no events
fire; when it equals that entry but the ip differs, the entry is replaced in
place at index `i` and every listener receives one `device_update` event. -/
theorem discovery_device_found_trichotomy {α : Type} (known : List DiscDeviceInfo)
    (listeners : List α) (d : DiscDeviceInfo) :
    (specFirstMatchIdx d known = none →
      device_found d listeners known =
        (known ++ [d], listeners.map (fun l => (l, DiscEvent.found d)))) ∧
    (∀ i last, specFirstMatchIdx d known = some i → known.get? i = some last →
      (d.ip = last.ip → device_found d listeners known = (known, [])) ∧
      (d.ip ≠ last.ip →
        device_found d listeners known =
          (known.set i d, listeners.map (fun l => (l, DiscEvent.update d))))) := by
  induction known with
  | nil =>
    refine ⟨fun _ => rfl, ?_⟩
    intro i last hidx
    simp [specFirstMatchIdx] at hidx
  | cons last0 rest ih =>
    constructor
    · intro hnone
      simp only [specFirstMatchIdx] at hnone
      by_cases he : deviceInfoEq d last0
      · rw [if_pos he] at hnone; cases hnone
      · rw [if_neg he] at hnone
        have hrest : specFirstMatchIdx d rest = none := by
          cases hr : specFirstMatchIdx d rest
          · rfl
          · rw [hr] at hnone; cases hnone
        have hih := ih.1 hrest
        simp only [device_found, if_neg he, hih, List.cons_append]
    · intro i last hidx hget
      simp only [specFirstMatchIdx] at hidx
      by_cases he : deviceInfoEq d last0
      · rw [if_pos he] at hidx
        cases hidx
        simp only [List.get?] at hget
        cases hget
        constructor
        · intro hip
          simp [device_found, he, hip]
        · intro hip
          simp [device_found, he, hip, List.set]
      · rw [if_neg he] at hidx
        cases hr : specFirstMatchIdx d rest with
        | none => rw [hr] at hidx; cases hidx
        | some j =>
          rw [hr] at hidx
          have hidx2 : j + 1 = i := Option.some.inj hidx
          cases hidx2
          simp only [List.get?] at hget
          have hih := ih.2 j last hr hget
          constructor
          · intro hip
            simp [device_found, he, hih.1 hip]
          · intro hip
            simp [device_found, he, hih.2 hip, List.set]

/-- Claim C4 witness: the address-update case at a concrete input — a known
device reappearing with a new ip is replaced in place and both listeners get
one `device_update` each. -/
theorem discovery_device_found_trichotomy_witness :
    specFirstMatchIdx ⟨"1.1.2.2", 7000, "aa11bb22cc33", "dev", none, none, none⟩
        [⟨"1.1.1.1", 7000, "aa11bb22cc33", "dev", none, none, none⟩] = some 0 ∧
      device_found ⟨"1.1.2.2", 7000, "aa11bb22cc33", "dev", none, none, none⟩ [0, 1]
          [⟨"1.1.1.1", 7000, "aa11bb22cc33", "dev", none, none, none⟩] =
        ([⟨"1.1.2.2", 7000, "aa11bb22cc33", "dev", none, none, none⟩],
          [(0, DiscEvent.update ⟨"1.1.2.2", 7000, "aa11bb22cc33", "dev", none, none, none⟩),
           (1, DiscEvent.update ⟨"1.1.2.2", 7000, "aa11bb22cc33", "dev", none, none, none⟩)]) :=
  ⟨by decide,
    ((discovery_device_found_trichotomy
        [⟨"1.1.1.1", 7000, "aa11bb22cc33", "dev", none, none, none⟩] [0, 1]
        ⟨"1.1.2.2", 7000, "aa11bb22cc33", "dev", none, none, none⟩).2 0
      ⟨"1.1.1.1", 7000, "aa11bb22cc33", "dev", none, none, none⟩ (by decide) (by decide)).2
      (by decide)⟩

/-! ### Envelope and key selection -/

/-- Which AES key a payload is encrypted under: the well-known generic key
(`GENERIC_KEY[0]` and the cipher default constants) or the per-device session
key (`self._key` / `device_key`). -/
inductive KeyChoice where
  | generic
  | session
deriving DecidableEq, Repr

/-- Outer JSON envelope as built by the library before encryption.  `i` is
`none` when the object carries no `"i"` field (`obj.get("i")` is `None`), as
in the discovery scan request; `packT` is the inner pack's command kind when
a pack is enclosed. -/
structure Envelope where
  cid : String
  i : Option Int
  t : String
  uid : Int
  tcid : String
  packT : Option String
deriving DecidableEq, Repr

/-- The key-selection rule shared by `DeviceProtocolBase2.send` and
`datagram_received`: the generic key iff `obj.get("i") == 1`, otherwise the
session key `self._key`. -/
def sendKeySelect (i : Option Int) : KeyChoice :=
  if i = some 1 then KeyChoice.generic else KeyChoice.session

/-- A transmitted envelope: wire fields plus, when a pack is enclosed, the
key it was encrypted under. -/
structure SentEnvelope where
  i : Option Int
  t : String
  packKey : Option KeyChoice
deriving DecidableEq, Repr

/-- `DeviceProtocolBase2.send`: a pack, when present, is encrypted under the
key selected from the envelope's own `i` field. -/
def protocolSend (env : Envelope) : SentEnvelope :=
  { i := env.i, t := env.t, packKey := env.packT.map (fun _ => sendKeySelect env.i) }

/-- `DeviceProtocol2._generate_payload(command, device_info, data)`: outer
fields `cid="app"`, `i=1`, `t="pack"` when an inner object is present (else
the command kind), `uid=0`, `tcid=mac`; inner pack `{t: command, mac: mac}`
merged with the data when present. -/
def generate_payload (command : String) (mac : String) (hasData : Bool) : Envelope :=
  { cid := "app", i := some 1, t := if hasData then "pack" else command,
    uid := 0, tcid := mac, packT := if hasData then some command else none }

/-- `DeviceProtocol2.create_bind_message`. -/
def create_bind_message (mac : String) : Envelope :=
  generate_payload "bind" mac true

/-- `DatagramStream.send_device_data(data, key)`: the pack, when present, is
encrypted under the caller-supplied key, not selected from `i`. -/
def send_device_data (env : Envelope) (key : KeyChoice) : SentEnvelope :=
  { i := env.i, t := env.t, packKey := env.packT.map (fun _ => key) }

/-- The envelope built by `network.send_state`: `cid="app"`, `i=0`,
`t="pack"`, inner pack of kind `"cmd"` carrying the `opt`/`p` columns. -/
def send_state_envelope (mac : String) : Envelope :=
  { cid := "app", i := some 0, t := "pack", uid := 0, tcid := mac, packT := some "cmd" }

/-- The envelope built by `network.request_state` (`status` request). -/
def request_state_envelope (mac : String) : Envelope :=
  { cid := "app", i := some 0, t := "pack", uid := 0, tcid := mac, packT := some "status" }

/-- `network.send_state` transmitted through `DatagramStream.send_device_data`
under the key the caller passes (`Device.push_state_update` passes
`key=self.device_key`, the session key). -/
def network_send_state (mac : String) (key : KeyChoice) : SentEnvelope :=
  send_device_data (send_state_envelope mac) key

/-- `network.request_state` transmitted likewise (`Device.update_state`
passes the session key). -/
def network_request_state (mac : String) (key : KeyChoice) : SentEnvelope :=
  send_device_data (request_state_envelope mac) key

/-- Claim C9: for every envelope sent through the protocol handler with an
inner pack, the pack is encrypted under the generic key iff the envelope's
`i` is 1; the bind message is built with `i=1` and therefore goes out under
the generic key; the `cmd` and `status` envelopes built by
`send_state`/`request_state` carry `i=0` and go out under the session key
that `Device` passes. -/
theorem envelope_key_invariant :
    (∀ env : Envelope, env.packT.isSome →
      ((protocolSend env).packKey = some KeyChoice.generic ↔ env.i = some 1)) ∧
    (∀ mac, (create_bind_message mac).i = some 1 ∧
      (protocolSend (create_bind_message mac)).packKey = some KeyChoice.generic) ∧
    (∀ mac, (send_state_envelope mac).i = some 0 ∧
      (network_send_state mac KeyChoice.session).packKey = some KeyChoice.session) ∧
    (∀ mac, (request_state_envelope mac).i = some 0 ∧
      (network_request_state mac KeyChoice.session).packKey = some KeyChoice.session) := by
  refine ⟨?_, fun mac => ⟨rfl, rfl⟩, fun mac => ⟨rfl, rfl⟩, fun mac => ⟨rfl, rfl⟩⟩
  intro env hp
  rcases henv : env.packT with _ | pt
  · rw [henv] at hp; cases hp
  · unfold protocolSend sendKeySelect
    rw [henv]
    by_cases hi : env.i = some 1
    · simp [hi]
    · simp [hi]

/-- Claim C9 witness: the bind message at a concrete mac has a pack, and the
equivalence instantiates to it. -/
theorem envelope_key_invariant_witness :
    (create_bind_message "aabbcc001122").packT.isSome = true ∧
      ((protocolSend (create_bind_message "aabbcc001122")).packKey =
          some KeyChoice.generic ↔ (create_bind_message "aabbcc001122").i = some 1) :=
  ⟨by decide, envelope_key_invariant.1 (create_bind_message "aabbcc001122") (by decide)⟩

/-! ### Cipher layer

Byte strings are `List Nat` with each element below 256.  The AES block
permutation (pycryptodome) and the JSON codec (stdlib) are external
dependencies of the repository; they enter the theorems as abstract
functions with their defining properties as hypotheses.  Base64 and the
padding/truncation logic are modelled concretely. -/

/-- The base64 alphabet as byte values: `A`–`Z`, `a`–`z`, `0`–`9`, `+`, `/`. -/
def b64Alphabet : List Nat :=
  [65, 66, 67, 68, 69, 70, 71, 72, 73, 74, 75, 76, 77, 78, 79, 80, 81, 82, 83, 84, 85,
   86, 87, 88, 89, 90, 97, 98, 99, 100, 101, 102, 103, 104, 105, 106, 107, 108, 109,
   110, 111, 112, 113, 114, 115, 116, 117, 118, 119, 120, 121, 122, 48, 49, 50, 51, 52,
   53, 54, 55, 56, 57, 43, 47]

/-- Byte value of the base64 character for a sextet. -/
def b64Char (i : Nat) : Nat :=
  b64Alphabet.getD i 65

/-- First index of a byte in a list, `none` when absent. -/
def indexInList (c : Nat) : List Nat → Option Nat
  | [] => none
  | a :: rest => if a = c then some 0 else (indexInList c rest).map (· + 1)

/-- Sextet value of a base64 character byte, `none` for non-alphabet bytes. -/
def b64Sextet (c : Nat) : Option Nat :=
  indexInList c b64Alphabet

/-- `base64.b64encode` on a byte list (RFC 4648 with `=` padding, byte 61). -/
def b64encode : List Nat → List Nat
  | [] => []
  | [a] => [b64Char (a / 4), b64Char (a % 4 * 16), 61, 61]
  | [a, b] => [b64Char (a / 4), b64Char (a % 4 * 16 + b / 16), b64Char (b % 16 * 4), 61]
  | a :: b :: c :: rest =>
    b64Char (a / 4) :: b64Char (a % 4 * 16 + b / 16) ::
      b64Char (b % 16 * 4 + c / 64) :: b64Char (c % 64) :: b64encode rest

/-- `base64.b64decode` on well-formed base64 (the shapes `b64encode`
produces); `none` models the `binascii` error on malformed input. -/
def b64decode : List Nat → Option (List Nat)
  | [] => some []
  | c1 :: c2 :: c3 :: c4 :: rest =>
    match b64Sextet c1, b64Sextet c2 with
    | some s1, some s2 =>
      if c3 = 61 ∧ c4 = 61 ∧ rest = [] then some [s1 * 4 + s2 / 16]
      else
        match b64Sextet c3 with
        | some s3 =>
          if c4 = 61 ∧ rest = [] then some [s1 * 4 + s2 / 16, s2 % 16 * 16 + s3 / 4]
          else
            match b64Sextet c4 with
            | some s4 =>
              (b64decode rest).map
                (fun r => (s1 * 4 + s2 / 16) :: (s2 % 16 * 16 + s3 / 4) :: (s3 % 4 * 64 + s4) :: r)
            | none => none
        | none => none
    | _, _ => none
  | _ => none

/-- AES-ECB layout: apply a block function to consecutive 16-byte blocks.
Fuel equals at least the input length so the recursion is structural (and
kernel-reducible); one unit of fuel is spent per block. -/
def ecbApplyFuel (f : List Nat → List Nat) : Nat → List Nat → List Nat
  | _, [] => []
  | 0, s => s
  | fuel + 1, s => f (s.take 16) ++ ecbApplyFuel f fuel (s.drop 16)

/-- `cipher.encrypt` / `cipher.decrypt` in AES-ECB mode: the block function
applied blockwise. -/
def ecbApply (f : List Nat → List Nat) (s : List Nat) : List Nat :=
  ecbApplyFuel f s.length s

/-- `CipherV1.__pad`: append `16 - len % 16` copies of the byte
`16 - len % 16` (PKCS#7; a full block of padding when already aligned). -/
def padPKCS7 (s : List Nat) : List Nat :=
  s ++ List.replicate (16 - s.length % 16) (16 - s.length % 16)

/-- Python `s.replace(pat, "")`: remove every non-overlapping occurrence of
`pat`, scanning left to right; with `pat = ""` the string is unchanged.
Fuel-based structural recursion (fuel at least the string length). -/
def pyStripAllFuel (pat : List Nat) : Nat → List Nat → List Nat
  | _, [] => []
  | 0, s => s
  | fuel + 1, c :: rest =>
    if pat ≠ [] ∧ pat.isPrefixOf (c :: rest) then
      pyStripAllFuel pat fuel ((c :: rest).drop pat.length)
    else c :: pyStripAllFuel pat fuel rest

/-- Python `s.replace(pat, "")`. -/
def pyStripAll (pat s : List Nat) : List Nat :=
  pyStripAllFuel pat s.length s

/-- Python `s.rindex(b)`: index of the last occurrence, `none` models the
`ValueError` when the byte does not occur. -/
def lastIndexOf (b : Nat) : List Nat → Option Nat
  | [] => none
  | c :: rest =>
    match lastIndexOf b rest with
    | some i => some (i + 1)
    | none => if c = b then some 0 else none

/-- The truncation step shared by `CipherV1.decrypt` and `CipherV2.decrypt`:
`decrypted.replace(decrypted[decrypted.rindex("}") + 1:], "")` — find the
last `"}"` (byte 125), take everything after it, and remove every occurrence
of that substring via Python `str.replace`. -/
def truncateAfterLastBrace (decrypted : List Nat) : Option (List Nat) :=
  match lastIndexOf 125 decrypted with
  | none => none
  | some idx => some (pyStripAll (decrypted.drop (idx + 1)) decrypted)

/-- `CipherV1.encrypt` with AES-ECB abstracted as the block function `enc`
and `json.dumps` as `dumps`: pad the serialized object, encrypt blockwise,
base64-encode. -/
def cipherV1_encrypt {J : Type} (dumps : J → List Nat) (enc : List Nat → List Nat)
    (data : J) : List Nat :=
  b64encode (ecbApply enc (padPKCS7 (dumps data)))

/-- `CipherV1.decrypt` with AES-ECB decryption abstracted as `dec` and
`json.loads` as `loads` (`none` on parse failure): base64-decode, decrypt
blockwise, truncate after the last `"}"`, JSON-parse. -/
def cipherV1_decrypt {J : Type} (loads : List Nat → Option J) (dec : List Nat → List Nat)
    (data : List Nat) : Option J :=
  match b64decode data with
  | none => none
  | some decoded =>
    match truncateAfterLastBrace (ecbApply dec decoded) with
    | none => none
    | some t => loads t

/-- `CipherV2.decrypt`, with the AES-GCM counter-mode decryption abstracted
as `gcm` and `json.loads` as `loads`.  The method receives no tag and
performs no authentication whatsoever: pycryptodome `cipher.decrypt` returns
the plaintext without verifying (verification would need
`decrypt_and_verify` or `verify`, which the source never calls), so the
result is base64-decode, decrypt, truncate after the last `"}"`, JSON-parse,
unconditionally. -/
def cipherV2_decrypt {J : Type} (loads : List Nat → Option J) (gcm : List Nat → List Nat)
    (data : List Nat) : Option J :=
  match b64decode data with
  | none => none
  | some decoded =>
    match truncateAfterLastBrace (gcm decoded) with
    | none => none
    | some t => loads t

/-! ### Cipher lemmas -/

theorem b64Sextet_b64Char : ∀ x, x < 64 → b64Sextet (b64Char x) = some x := by decide

theorem b64Char_ne_61 : ∀ x, x < 64 → b64Char x ≠ 61 := by decide

/-- Decoding inverts encoding on byte lists. -/
theorem b64decode_b64encode :
    ∀ s : List Nat, (∀ x ∈ s, x < 256) → b64decode (b64encode s) = some s := by
  intro s
  induction s using b64encode.induct with
  | case1 => intro _; rfl
  | case2 a =>
    intro hs
    have ha : a < 256 := hs a (by simp)
    have h1 := b64Sextet_b64Char (a / 4) (by omega)
    have h2 := b64Sextet_b64Char (a % 4 * 16) (by omega)
    simp [b64encode, b64decode, h1, h2]
    omega
  | case3 a b =>
    intro hs
    have ha : a < 256 := hs a (by simp)
    have hb : b < 256 := hs b (by simp)
    have h1 := b64Sextet_b64Char (a / 4) (by omega)
    have h2 := b64Sextet_b64Char (a % 4 * 16 + b / 16) (by omega)
    have h3 := b64Sextet_b64Char (b % 16 * 4) (by omega)
    have hne3 := b64Char_ne_61 (b % 16 * 4) (by omega)
    simp [b64encode, b64decode, h1, h2, h3, hne3]
    omega
  | case4 a b c rest ih =>
    intro hs
    have ha : a < 256 := hs a (by simp)
    have hb : b < 256 := hs b (by simp)
    have hc : c < 256 := hs c (by simp)
    have h1 := b64Sextet_b64Char (a / 4) (by omega)
    have h2 := b64Sextet_b64Char (a % 4 * 16 + b / 16) (by omega)
    have h3 := b64Sextet_b64Char (b % 16 * 4 + c / 64) (by omega)
    have h4 := b64Sextet_b64Char (c % 64) (by omega)
    have hne3 := b64Char_ne_61 (b % 16 * 4 + c / 64) (by omega)
    have hne4 := b64Char_ne_61 (c % 64) (by omega)
    have hrest := ih (fun x hx => hs x (by simp [hx]))
    simp [b64encode, b64decode, h1, h2, h3, h4, hne3, hne4, hrest]
    omega

/-- Any sufficient fuel computes the same blockwise application. -/
theorem ecbApplyFuel_fuel_irrel (f : List Nat → List Nat) :
    ∀ fuel1 fuel2 s, s.length ≤ fuel1 → s.length ≤ fuel2 →
      ecbApplyFuel f fuel1 s = ecbApplyFuel f fuel2 s := by
  intro fuel1
  induction fuel1 with
  | zero =>
    intro fuel2 s h1 _
    have hs : s = [] := List.length_eq_zero.mp (Nat.le_zero.mp h1)
    subst hs
    cases fuel2 <;> rfl
  | succ n ih =>
    intro fuel2 s h1 h2
    cases s with
    | nil => cases fuel2 <;> rfl
    | cons a t =>
      cases fuel2 with
      | zero => simp at h2
      | succ m =>
        simp only [ecbApplyFuel]
        congr 1
        apply ih
        · rw [List.length_drop]; simp only [List.length_cons] at h1 ⊢; omega
        · rw [List.length_drop]; simp only [List.length_cons] at h2 ⊢; omega

/-- Unfolding step for a nonempty input. -/
theorem ecbApply_cons (f : List Nat → List Nat) (s : List Nat) (hs : s ≠ []) :
    ecbApply f s = f (s.take 16) ++ ecbApply f (s.drop 16) := by
  unfold ecbApply
  cases s with
  | nil => exact absurd rfl hs
  | cons a t =>
    simp only [List.length_cons, ecbApplyFuel]
    congr 1
    apply ecbApplyFuel_fuel_irrel
    · rw [List.length_drop]; simp only [List.length_cons]; omega
    · exact Nat.le_refl _

/-- Blockwise decryption undoes blockwise encryption on inputs of block-
aligned length, given the block inverse property. -/
theorem ecbApply_inverse (enc dec : List Nat → List Nat)
    (henc_len : ∀ b : List Nat, b.length = 16 → (enc b).length = 16)
    (hdec : ∀ b : List Nat, b.length = 16 → dec (enc b) = b) :
    ∀ n s, s.length = 16 * n → ecbApply dec (ecbApply enc s) = s := by
  intro n
  induction n with
  | zero =>
    intro s h
    have hs : s = [] := List.length_eq_zero.mp (by omega)
    subst hs; rfl
  | succ m ih =>
    intro s h
    have hne : s ≠ [] := by
      intro hnil; rw [hnil] at h; simp only [List.length_nil] at h; omega
    have htake : (s.take 16).length = 16 := by rw [List.length_take]; omega
    have hdrop : (s.drop 16).length = 16 * m := by rw [List.length_drop]; omega
    rw [ecbApply_cons enc s hne]
    have henc16 : (enc (s.take 16)).length = 16 := henc_len _ htake
    have hne2 : enc (s.take 16) ++ ecbApply enc (s.drop 16) ≠ [] := by
      intro hnil
      have hlen := congrArg List.length hnil
      simp [henc16] at hlen
    rw [ecbApply_cons dec _ hne2, List.take_left' henc16, List.drop_left' henc16,
      hdec _ htake, ih _ hdrop]
    exact List.take_append_drop 16 s

/-- Blockwise encryption of block-aligned printable input yields bytes below
256, given the block byte-range property. -/
theorem ecbApply_bytes (enc : List Nat → List Nat)
    (henc_bytes : ∀ b : List Nat, b.length = 16 → (∀ x ∈ b, x < 256) → ∀ x ∈ enc b, x < 256) :
    ∀ n s, s.length = 16 * n → (∀ x ∈ s, x < 256) → ∀ x ∈ ecbApply enc s, x < 256 := by
  intro n
  induction n with
  | zero =>
    intro s h _ x hx
    have hs : s = [] := List.length_eq_zero.mp (by omega)
    subst hs
    cases hx
  | succ m ih =>
    intro s h hs x hx
    have hne : s ≠ [] := by
      intro hnil; rw [hnil] at h; simp only [List.length_nil] at h; omega
    have htake : (s.take 16).length = 16 := by rw [List.length_take]; omega
    have hdrop : (s.drop 16).length = 16 * m := by rw [List.length_drop]; omega
    rw [ecbApply_cons enc s hne] at hx
    rcases List.mem_append.mp hx with hx | hx
    · exact henc_bytes _ htake (fun y hy => hs y (List.take_subset 16 s hy)) x hx
    · exact ih _ hdrop (fun y hy => hs y (List.drop_subset 16 s hy)) x hx

theorem lastIndexOf_eq_none (b : Nat) :
    ∀ t : List Nat, (∀ c ∈ t, c ≠ b) → lastIndexOf b t = none := by
  intro t
  induction t with
  | nil => intro _; rfl
  | cons c rest ih =>
    intro h
    simp only [lastIndexOf, ih (fun x hx => h x (List.mem_cons_of_mem c hx))]
    rw [if_neg (h c (List.mem_cons_self c rest))]

/-- Appending a suffix free of `b` does not move the last occurrence. -/
theorem lastIndexOf_append_none (b : Nat) (t : List Nat)
    (ht : lastIndexOf b t = none) :
    ∀ s : List Nat, lastIndexOf b (s ++ t) = lastIndexOf b s := by
  intro s
  induction s with
  | nil => simpa using ht
  | cons c rest ih =>
    simp only [List.cons_append, lastIndexOf, List.append_eq]
    rw [ih]

/-- The last occurrence of `b` in `s0 ++ [b]` is at index `s0.length`. -/
theorem lastIndexOf_concat (b : Nat) :
    ∀ s : List Nat, lastIndexOf b (s ++ [b]) = some s.length := by
  intro s
  induction s with
  | nil => simp [lastIndexOf]
  | cons c rest ih =>
    simp only [List.cons_append, lastIndexOf, List.append_eq]
    rw [ih]
    simp

theorem isPrefixOf_self : ∀ l : List Nat, l.isPrefixOf l = true := by
  intro l
  induction l with
  | nil => rfl
  | cons a t ih => simp [List.isPrefixOf, ih]

theorem isPrefixOf_cons_false (p0 : Nat) (pt : List Nat) (a : Nat) (t : List Nat)
    (h : p0 ≠ a) : (p0 :: pt).isPrefixOf (a :: t) = false := by
  simp [List.isPrefixOf, h]

/-- Python `replace(pat, "")` on `s ++ pat` removes exactly the trailing
occurrence when the first byte of `pat` does not occur in `s`. -/
theorem pyStripAllFuel_append (pat : List Nat) (hpat : pat ≠ []) (p0 : Nat)
    (hhead : pat.head? = some p0) :
    ∀ s : List Nat, (∀ c ∈ s, c ≠ p0) →
      ∀ fuel, s.length + pat.length ≤ fuel → pyStripAllFuel pat fuel (s ++ pat) = s := by
  intro s
  induction s with
  | nil =>
    intro _ fuel hfuel
    rcases hp : pat with _ | ⟨q, qt⟩
    · exact absurd hp hpat
    · rw [hp] at hfuel
      simp only [List.length_cons] at hfuel
      cases fuel with
      | zero => omega
      | succ n =>
        simp only [List.nil_append, hp, pyStripAllFuel]
        rw [if_pos ⟨List.cons_ne_nil q qt, isPrefixOf_self _⟩]
        rw [List.drop_length]
        cases n <;> rfl
  | cons a s1 ih =>
    intro hno fuel hfuel
    cases fuel with
    | zero => simp only [List.length_cons] at hfuel; omega
    | succ n =>
      simp only [List.cons_append, pyStripAllFuel, List.append_eq]
      have hpre : pat.isPrefixOf (a :: (s1 ++ pat)) = false := by
        rcases hp : pat with _ | ⟨q, qt⟩
        · exact absurd hp hpat
        · have hq : q = p0 := by rw [hp] at hhead; simpa using hhead
          subst hq
          exact isPrefixOf_cons_false _ _ _ _
            (fun he => hno a (List.mem_cons_self a s1) he.symm)
      rw [if_neg (by simp [hpre])]
      have hr := ih (fun c hc => hno c (List.mem_cons_of_mem a hc)) n
        (by simp only [List.length_cons] at hfuel; omega)
      simp only [List.append_eq] at hr ⊢
      rw [hr]

theorem pyStripAll_append (pat : List Nat) (hpat : pat ≠ []) (p0 : Nat)
    (hhead : pat.head? = some p0) (s : List Nat) (hno : ∀ c ∈ s, c ≠ p0) :
    pyStripAll pat (s ++ pat) = s := by
  unfold pyStripAll
  exact pyStripAllFuel_append pat hpat p0 hhead s hno _ (by simp)

/-- Claim C8: decrypting a V1 encryption of any JSON object under the same
key recovers the object.  The AES-ECB block permutation (pycryptodome) and
the JSON codec (stdlib) are the repository's external dependencies, taken as
abstract functions whose defining properties are hypotheses — true of
Python: `json.dumps` of an object is printable ASCII ending in the closing
brace (byte 125), its parse returns the object, and AES decryption inverts
AES encryption blockwise.  The repository-level content proved here: PKCS#7
padding, blockwise ECB application and base64 encoding are exactly undone by
base64 decoding, blockwise decryption and the last-`"}"` truncation (Python
`replace`-based), after which the JSON parse sees the original serialized
bytes. -/
theorem cipherV1_roundtrip {J : Type} (dumps : J → List Nat) (loads : List Nat → Option J)
    (enc dec : List Nat → List Nat) (data : J)
    (hloads : loads (dumps data) = some data)
    (hascii : ∀ c ∈ dumps data, 32 ≤ c ∧ c < 127)
    (hend : ∃ s0, dumps data = s0 ++ [125])
    (henc_len : ∀ b : List Nat, b.length = 16 → (enc b).length = 16)
    (henc_bytes : ∀ b : List Nat, b.length = 16 → (∀ x ∈ b, x < 256) → ∀ x ∈ enc b, x < 256)
    (hdec : ∀ b : List Nat, b.length = 16 → dec (enc b) = b) :
    cipherV1_decrypt loads dec (cipherV1_encrypt dumps enc data) = some data := by
  obtain ⟨s0, hs0⟩ := hend
  have hpadlen : (padPKCS7 (dumps data)).length = 16 * ((dumps data).length / 16 + 1) := by
    unfold padPKCS7
    rw [List.length_append, List.length_replicate]
    omega
  have hpadbytes : ∀ x ∈ padPKCS7 (dumps data), x < 256 := by
    intro x hx
    unfold padPKCS7 at hx
    rcases List.mem_append.mp hx with hx | hx
    · have := (hascii x hx).2; omega
    · rw [List.eq_of_mem_replicate hx]; omega
  have hdecoded : b64decode (b64encode (ecbApply enc (padPKCS7 (dumps data)))) =
      some (ecbApply enc (padPKCS7 (dumps data))) :=
    b64decode_b64encode _ (ecbApply_bytes enc henc_bytes _ _ hpadlen hpadbytes)
  have hinv : ecbApply dec (ecbApply enc (padPKCS7 (dumps data))) = padPKCS7 (dumps data) :=
    ecbApply_inverse enc dec henc_len hdec _ _ hpadlen
  have hlast : lastIndexOf 125 (padPKCS7 (dumps data)) = some s0.length := by
    unfold padPKCS7
    rw [lastIndexOf_append_none 125 _ (lastIndexOf_eq_none 125 _ ?_), hs0, lastIndexOf_concat]
    intro c hc
    rw [List.eq_of_mem_replicate hc]
    omega
  have hidx : s0.length + 1 = (dumps data).length := by
    rw [hs0]; simp
  have hdrop2 : (padPKCS7 (dumps data)).drop (s0.length + 1) =
      List.replicate (16 - (dumps data).length % 16) (16 - (dumps data).length % 16) := by
    unfold padPKCS7
    rw [hidx, List.drop_left]
  have hpblow : 1 ≤ 16 - (dumps data).length % 16 ∧ 16 - (dumps data).length % 16 ≤ 16 := by
    omega
  have hstrip : pyStripAll
      (List.replicate (16 - (dumps data).length % 16) (16 - (dumps data).length % 16))
      (padPKCS7 (dumps data)) = dumps data := by
    unfold padPKCS7
    apply pyStripAll_append _ _ (16 - (dumps data).length % 16)
    · obtain ⟨m, hm⟩ : ∃ m, 16 - (dumps data).length % 16 = m + 1 :=
        ⟨16 - (dumps data).length % 16 - 1, by omega⟩
      rw [hm]
      rfl
    · intro c hc
      have := (hascii c hc).1
      omega
    · intro hnil
      have hlen := congrArg List.length hnil
      rw [List.length_replicate] at hlen
      simp at hlen
      omega
  unfold cipherV1_encrypt cipherV1_decrypt
  rw [hdecoded]
  simp only [hinv, truncateAfterLastBrace, hlast, hdrop2, hstrip, hloads]

/-- Claim C8 witness: the round trip at the concrete object serialized as
`"\x7b\x7d"` (bytes 123, 125), with the identity block permutation. -/
theorem cipherV1_roundtrip_witness :
    cipherV1_decrypt (fun s => if s = [123, 125] then some () else none) (fun b => b)
      (cipherV1_encrypt (fun _ => [123, 125]) (fun b => b) ()) = some () :=
  cipherV1_roundtrip (fun _ => [123, 125])
    (fun s => if s = [123, 125] then some () else none) (fun b => b) (fun b => b) ()
    (by decide) (by decide) ⟨[123], rfl⟩ (fun _ hb => hb) (fun _ _ h => h) (fun _ _ => rfl)

/-- Claim C2: the code contradicts the claimed authentication.
`CipherV2.decrypt` receives no tag and never verifies one, so for every
purported tag value — matching or not — decryption of a well-formed
ciphertext returns the JSON-parsed plaintext instead of raising a
`DecryptionFailure`: unauthenticated plaintext is delivered to the caller.
Instantiated at the ciphertext `b64encode [123, 125]` (the GCM keystream
abstracted as the identity), the result is the parsed object for any `tag`. -/
theorem cipherV2_decrypt_ignores_tag (_tag : List Nat) :
    cipherV2_decrypt (fun s => if s = [123, 125] then some () else none) (fun b => b)
      (b64encode [123, 125]) = some () := by
  decide

end Gree
